import Mathlib

/-!
Shallow embedding of the Cisco-MAB-to-Nile conversion pipeline
(Next.js API route `POST` handler with `parseFileContent`,
`formatMacAddress`, `generateCsv`).

Strings are modelled as `List Char`; JavaScript string operations
(`trim`, `split(/\s+/)`, `split('\n')`, `parseInt`, the mapping-line
regular expression, `toLowerCase`, `replace`) are translated to
explicit recursive functions with JavaScript semantics.  JavaScript
numbers are modelled as exact integers (`Int` / `Nat`); the inputs the
claims exercise stay far below 2^53, where the two agree.  The base64
transport wrapping (`atob` / `btoa`) around the handler is a transport
concern and is elided: the model operates on already-decoded text.
-/

namespace CiscoMab

/-- The character set matched by JavaScript's `\s` (also the set removed
by `String.prototype.trim`): ASCII whitespace, NBSP, BOM, and the
Unicode space separators and line terminators. -/
def isJsSpace (c : Char) : Bool :=
  c == ' ' || c == '\t' || c == '\n' || c == '\x0b' || c == '\x0c' || c == '\r' ||
  c.toNat == 0xA0 || c.toNat == 0xFEFF || c.toNat == 0x1680 ||
  (0x2000 ≤ c.toNat && c.toNat ≤ 0x200A) ||
  c.toNat == 0x2028 || c.toNat == 0x2029 || c.toNat == 0x202F ||
  c.toNat == 0x205F || c.toNat == 0x3000

/-- JavaScript line terminators (the characters NOT matched by `.` in a
regular expression without the `s` flag). -/
def isLineTerm (c : Char) : Bool :=
  c == '\n' || c == '\r' || c.toNat == 0x2028 || c.toNat == 0x2029

/-- `String.prototype.trim`: drop JS whitespace from both ends. -/
def trimChars (l : List Char) : List Char :=
  ((l.dropWhile isJsSpace).reverse.dropWhile isJsSpace).reverse

/-- `Array.prototype.join(sep)` for a one-character separator. -/
def joinSep (sep : Char) : List (List Char) → List Char
  | [] => []
  | [x] => x
  | x :: y :: rest => x ++ sep :: joinSep sep (y :: rest)

/-- `str.split('\n')`: segments between newline characters (empty
segments included, as in JavaScript). -/
def splitNl : List Char → List (List Char)
  | [] => [[]]
  | c :: rest =>
    if c = '\n' then [] :: splitNl rest
    else
      match splitNl rest with
      | [] => [[c]]
      | g :: gs => (c :: g) :: gs

theorem length_dropWhile_le (p : Char → Bool) (l : List Char) :
    (l.dropWhile p).length ≤ l.length := by
  induction l with
  | nil => simp
  | cons c rest ih =>
    rw [List.dropWhile_cons]
    split
    · exact Nat.le_succ_of_le ih
    · exact Nat.le_refl _

/-- Worker for `str.split(/\s+/)`: in state `some acc` a token (reversed
in `acc`) is being built; in state `none` a separator run is being
skipped. -/
def splitWsAux : List Char → Option (List Char) → List (List Char)
  | [], some acc => [acc.reverse]
  | [], none => [[]]
  | c :: rest, some acc =>
    if isJsSpace c then acc.reverse :: splitWsAux rest none
    else splitWsAux rest (some (c :: acc))
  | c :: rest, none =>
    if isJsSpace c then splitWsAux rest none
    else splitWsAux rest (some [c])

/-- `str.split(/\s+/)`: split on runs of JS whitespace.  A leading or
trailing separator run contributes an empty segment, as in JavaScript. -/
def splitWs (l : List Char) : List (List Char) :=
  splitWsAux l (some [])

/-- Numeric value of a list of decimal digit characters. -/
def digitsVal (l : List Char) : Nat :=
  l.foldl (fun a c => a * 10 + (c.toNat - 48)) 0

/-- `parseInt(s, 10)`: skip leading whitespace, accept an optional sign,
then read the longest decimal-digit prefix; `none` models `NaN` (no
digits at all).  Trailing non-digit characters are ignored. -/
def jsParseInt (s : List Char) : Option Int :=
  match s.dropWhile isJsSpace with
  | '-' :: rest =>
    if rest.takeWhile Char.isDigit = [] then none
    else some (-(digitsVal (rest.takeWhile Char.isDigit) : Int))
  | '+' :: rest =>
    if rest.takeWhile Char.isDigit = [] then none
    else some (digitsVal (rest.takeWhile Char.isDigit) : Int)
  | t =>
    if t.takeWhile Char.isDigit = [] then none
    else some (digitsVal (t.takeWhile Char.isDigit) : Int)

/-- A single or double quote, the class `['"]` of the mapping regex. -/
def isQuote (c : Char) : Bool :=
  c == '\x27' || c == '"'

/-- All characters matchable by `.` (no line terminators). -/
def noLT (l : List Char) : Bool :=
  l.all fun c => !isLineTerm c

/-- Whether the last character of `r` is a quote. -/
def lastIsQuote (r : List Char) : Bool :=
  match r.getLast? with
  | some c => isQuote c
  | none => false

/-- Match `r` against `(.*?)['"]?$` and return the (lazy, shortest)
capture: if the last character is a quote it is stripped, otherwise the
whole remainder is captured; fails only when the capture would have to
contain a line terminator. -/
def tailCapture (r : List Char) : Option (List Char) :=
  if lastIsQuote r && noLT r.dropLast then some r.dropLast
  else if noLT r then some r
  else none

/-- Match `r` against `['"]?(.*?)['"]?$`: the greedy optional leading
quote is tried first, with backtracking to the unquoted branch. -/
def mappingTail (r : List Char) : Option (List Char) :=
  match r with
  | c :: rest =>
    if isQuote c then
      match tailCapture rest with
      | some cap => some cap
      | none => tailCapture r
    else tailCapture r
  | [] => tailCapture []

/-- `trimmedLine.match(/^(\d+)\s*=\s*['"]?(.*?)['"]?$/)`, returning the
parsed VLAN id and the captured segment name when the line matches. -/
def mappingMatch (l : List Char) : Option (Nat × List Char) :=
  let ds := l.takeWhile Char.isDigit
  if ds = [] then none
  else
    match (l.dropWhile Char.isDigit).dropWhile isJsSpace with
    | '=' :: r3 =>
      match mappingTail (r3.dropWhile isJsSpace) with
      | some cap => some (digitsVal ds, cap)
      | none => none
    | _ => none

/-- `mac.toLowerCase().replace(/[.:-]/g, '')`. -/
def cleanMac (l : List Char) : List Char :=
  (l.map Char.toLower).filter fun c => !(c == '.' || c == ':' || c == '-')

/-- `mac.match(/.{1,2}/g)`: greedy runs of one or two non-line-terminator
characters, scanning left to right; an empty result models a `null`
match. -/
def dotChunks : List Char → List (List Char)
  | [] => []
  | c :: rest =>
    if isLineTerm c then dotChunks rest
    else
      match rest with
      | [] => [[c]]
      | d :: rest2 =>
        if isLineTerm d then [c] :: dotChunks rest2
        else [c, d] :: dotChunks rest2

/-- `formatMacAddress` from the source: lower-case, strip `.`/`:`/`-`,
and when exactly 12 characters remain reinsert `:` after every two
(`match(/.{1,2}/g)?.join(':') || mac`); otherwise return the cleaned
string unchanged. -/
def formatMacAddress (mac : List Char) : List Char :=
  let cleaned := cleanMac mac
  if cleaned.length = 12 then
    match dotChunks cleaned with
    | [] => cleaned
    | g :: gs => joinSep ':' (g :: gs)
  else cleaned

/-- One extracted MAC binding (`clients.push({vlan, mac, port})`). -/
structure Client where
  vlan : Int
  mac : List Char
  port : List Char
deriving DecidableEq, Repr

/-- The accumulator of `parseFileContent`'s `forEach` loop: the pushed
clients, the `uniqueVlans` set in insertion order, and the
`detectedMappings` object in key-insertion order. -/
structure ParseState where
  clients : List Client
  uniqueVlans : List Int
  detectedMappings : List (List Char × List Char)
deriving DecidableEq, Repr

/-- JS object read `m[k]`: first binding of the key, if any. -/
def objGet (m : List (List Char × List Char)) (k : List Char) : Option (List Char) :=
  match m with
  | [] => none
  | (k0, v0) :: rest => if k0 = k then some v0 else objGet rest k

/-- JS object write `m[k] = v`: update in place, else append. -/
def objSet (m : List (List Char × List Char)) (k v : List Char) :
    List (List Char × List Char) :=
  match m with
  | [] => [(k, v)]
  | (k0, v0) :: rest => if k0 = k then (k0, v) :: rest else (k0, v0) :: objSet rest k v

/-- JS `Set.prototype.add`: append unless already present. -/
def setAdd (s : List Int) (x : Int) : List Int :=
  if x ∈ s then s else s ++ [x]

/-- Decimal string of a natural number, `n.toString()`. -/
def natChars (n : Nat) : List Char :=
  Nat.toDigits 10 n

/-- Decimal string of an integer, `n.toString()`. -/
def intChars (i : Int) : List Char :=
  if i < 0 then '-' :: natChars i.natAbs else natChars i.toNat

/-- Body of `lines.forEach(line => ...)` in `parseFileContent`: trim,
skip blank lines, try the mapping regex, otherwise split on whitespace
and push a client when there are at least 4 tokens and token 0 parses. -/
def stepLine (st : ParseState) (line : List Char) : ParseState :=
  let t := trimChars line
  if t = [] then st
  else
    match mappingMatch t with
    | some (v, seg) =>
      { st with detectedMappings := objSet st.detectedMappings (natChars v) seg }
    | none =>
      let parts := splitWs t
      if parts.length < 4 then st
      else
        match jsParseInt (parts.headD []) with
        | none => st
        | some vlan =>
          let mac := (parts[1]?).getD []
          let port := (parts[3]?).getD []
          if mac = [] || port = [] then st
          else
            { st with
              clients := st.clients ++ [⟨vlan, mac, port⟩],
              uniqueVlans := setAdd st.uniqueVlans vlan }

/-- Fold `stepLine` over a list of lines from the empty state. -/
def processLines (lines : List (List Char)) : ParseState :=
  lines.foldl stepLine ⟨[], [], []⟩

/-- Insert into an ascending list (models the numeric `sort`). -/
def insSorted (x : Int) : List Int → List Int
  | [] => [x]
  | y :: ys => if x ≤ y then x :: y :: ys else y :: insSorted x ys

/-- `Array.from(set).sort((a, b) => a - b)`. -/
def sortInts (l : List Int) : List Int :=
  l.foldr insSorted []

/-- Return value of `parseFileContent`. -/
structure ParseResult where
  clients : List Client
  uniqueVlans : List Int
  detectedMappings : List (List Char × List Char)
deriving DecidableEq, Repr

/-- `parseFileContent` from the source: trim the content, split into
lines on `'\n'`, scan each line, and return the clients, the sorted
unique VLANs, and the detected mappings. -/
def parseFileContent (content : List Char) : ParseResult :=
  let st := processLines (splitNl (trimChars content))
  ⟨st.clients, sortInts st.uniqueVlans, st.detectedMappings⟩

/-- The record (if any) that a single input line contributes: the
client-producing branch of `stepLine`, in isolation. -/
def recordOfLine (line : List Char) : Option Client :=
  let t := trimChars line
  if t = [] then none
  else
    match mappingMatch t with
    | some _ => none
    | none =>
      let parts := splitWs t
      if parts.length < 4 then none
      else
        match jsParseInt (parts.headD []) with
        | none => none
        | some vlan =>
          let mac := (parts[1]?).getD []
          let port := (parts[3]?).getD []
          if mac = [] || port = [] then none
          else some ⟨vlan, mac, port⟩

/-- The mapping declaration (if any) that a single input line
contributes: the regex branch of `stepLine`, in isolation. -/
def lineMapping (line : List Char) : Option (Nat × List Char) :=
  let t := trimChars line
  if t = [] then none else mappingMatch t

/-- `value || ''`: a JS falsy lookup result renders as the empty string. -/
def jsOrEmpty : Option (List Char) → List Char
  | some v => if v = [] then [] else v
  | none => []

/-- The 11 header labels of the source `generateCsv`. -/
def csvHeaders : List (List Char) :=
  ["MAC Address (Required)".data,
   "Segment (Required for allow state)".data,
   "Lock to Port (Optional)".data,
   "Site (Optional)".data,
   "Building (Optional)".data,
   "Floor (Optional)".data,
   "Allow or Deny (Required)".data,
   "Description (Optional)".data,
   "Static IP (Optional)".data,
   "IP Address (Optional)".data,
   "Passive IP (Optional)".data]

/-- The 11 fields of one data row of the source `generateCsv`. -/
def csvRowFields (vlanMappings : List (List Char × List Char)) (client : Client) :
    List (List Char) :=
  [formatMacAddress client.mac,
   jsOrEmpty (objGet vlanMappings (intChars client.vlan)),
   [], [], [], [],
   "Allow".data,
   [],
   "No".data,
   [],
   "No".data]

/-- `generateCsv` from the source: the joined header row followed by one
joined row per client, all joined with `'\n'`. -/
def generateCsv (clients : List Client) (vlanMappings : List (List Char × List Char)) :
    List Char :=
  joinSep '\n'
    (joinSep ',' csvHeaders ::
      clients.map fun client => joinSep ',' (csvRowFields vlanMappings client))

/-- The JSON body returned by the `POST` handler on success. -/
structure ApiResponse where
  csvContent : List Char
  detectedMappings : List (List Char × List Char)
deriving DecidableEq, Repr

/-- The conversion core of the `POST` handler, after base64 decoding:
parse the content, fail with the user-facing message when no client was
found, otherwise render with the caller's mappings when they have at
least one key and with the detected mappings otherwise. -/
def processRequest (decodedContent : List Char)
    (vlanMappings : List (List Char × List Char)) :
    Except (List Char) ApiResponse :=
  let pr := parseFileContent decodedContent
  if pr.clients.length = 0 then
    Except.error "No valid MAC address entries found in the file".data
  else
    let finalMappings :=
      if vlanMappings.length > 0 then vlanMappings else pr.detectedMappings
    Except.ok ⟨generateCsv pr.clients finalMappings, pr.detectedMappings⟩

/-- Modelled from the spec: the base (7-column) header labels of the
`includeIpColumns` renderer of `lambda/lambda_function.py`, which the
deploy scripts and README reference but which is absent from the
sources; §4.3 of the specification fixes its column sets. -/
def baseHeaders : List (List Char) :=
  ["MAC Address (Required)".data,
   "Segment (Required for allow state)".data,
   "Lock to Port (Optional)".data,
   "Site (Optional)".data,
   "Building (Optional)".data,
   "Floor (Optional)".data,
   "Allow or Deny (Required)".data]

/-- Modelled from the spec: the 4 IP-related header labels appended when
`includeIpColumns` is true (§4.3). -/
def ipHeaders : List (List Char) :=
  ["Description (Optional)".data,
   "Static IP (Optional)".data,
   "IP Address (Optional)".data,
   "Passive IP (Optional)".data]

/-- Modelled from the spec: the fields of one rendered data row of the
column-configurable renderer (§4.3) — normalized MAC, segment lookup
(empty when absent), four empty columns, the literal `Allow`, and, when
`includeIpColumns` is true, empty Description, literal `No`, empty
IP Address, literal `No`. -/
def rowFields (m : List (List Char × List Char)) (includeIpColumns : Bool)
    (c : Client) : List (List Char) :=
  [formatMacAddress c.mac,
   jsOrEmpty (objGet m (intChars c.vlan)),
   [], [], [], [],
   "Allow".data] ++
  (if includeIpColumns then [[], "No".data, [], "No".data] else [])

/-- Modelled from the spec: `render(records, mapping, includeIpColumns)`
(§4.3, §6) — the header for the selected column set followed by one row
per record in input order, comma-joined fields, newline-joined rows, no
trailing newline. -/
def render (records : List Client) (m : List (List Char × List Char))
    (includeIpColumns : Bool) : List Char :=
  joinSep '\n'
    (joinSep ',' (baseHeaders ++ if includeIpColumns then ipHeaders else []) ::
      records.map fun c => joinSep ',' (rowFields m includeIpColumns c))

/-- Pairing of a string into chunks of two characters (the regrouping
the specification describes for a cleaned 12-character MAC). -/
def pairChunks : List Char → List (List Char)
  | [] => []
  | [c] => [[c]]
  | c :: d :: rest => [c, d] :: pairChunks rest

/-- A hexadecimal-looking character: a decimal digit (codes 48–57) or a
letter a–f (97–102) or A–F (65–70). -/
def isHexLooking (c : Char) : Bool :=
  (48 ≤ c.toNat && c.toNat ≤ 57) || (97 ≤ c.toNat && c.toNat ≤ 102) ||
  (65 ≤ c.toNat && c.toNat ≤ 70)

end CiscoMab

namespace CiscoMab

theorem mappingMatch_nil : mappingMatch [] = none := rfl

theorem stepLine_clients (st : ParseState) (line : List Char) :
    (stepLine st line).clients = st.clients ++ (recordOfLine line).toList := by
  simp only [stepLine, recordOfLine]
  split
  · simp
  · split
    · simp_all
    · split
      · simp_all
      · split
        · simp_all
        · split <;> simp_all

theorem foldl_stepLine_clients (lines : List (List Char)) (st : ParseState) :
    (lines.foldl stepLine st).clients = st.clients ++ lines.filterMap recordOfLine := by
  induction lines generalizing st with
  | nil => simp
  | cons l rest ih =>
    simp only [List.foldl_cons, List.filterMap_cons]
    rw [ih, stepLine_clients]
    cases h : recordOfLine l <;> simp

theorem objGet_objSet_self (m : List (List Char × List Char)) (k v : List Char) :
    objGet (objSet m k v) k = some v := by
  induction m with
  | nil => simp [objGet, objSet]
  | cons p rest ih =>
    obtain ⟨k0, v0⟩ := p
    by_cases h : k0 = k <;> simp [objGet, objSet, h, ih]

theorem stepLine_mapping (st : ParseState) (line : List Char) (v : Nat) (seg : List Char)
    (h : mappingMatch (trimChars line) = some (v, seg)) :
    stepLine st line =
      { st with detectedMappings := objSet st.detectedMappings (natChars v) seg } := by
  have hne : trimChars line ≠ [] := by
    intro hnil
    rw [hnil, mappingMatch_nil] at h
    exact Option.noConfusion h
  unfold stepLine
  simp only [hne, if_false, h]

theorem stepLine_skip (st : ParseState) (line : List Char)
    (hr : recordOfLine line = none) (hm : lineMapping line = none) :
    stepLine st line = st := by
  simp only [stepLine]
  simp only [recordOfLine] at hr
  simp only [lineMapping] at hm
  split
  · rfl
  · rename_i hne
    simp only [hne, if_false] at hr hm
    split
    · rename_i v seg hmm
      rw [hmm] at hm
      exact absurd hm (by simp)
    · rename_i hmm
      rw [hmm] at hr
      simp only at hr
      split
      · rfl
      · rename_i hlen
        rw [if_neg hlen] at hr
        split
        · rfl
        · rename_i vlan hv
          rw [hv] at hr
          simp only at hr
          split
          · rfl
          · rename_i hmp
            rw [if_neg hmp] at hr
            exact absurd hr (by simp)

end CiscoMab

namespace CiscoMab

theorem dropWhile_head?_not (p : Char → Bool) (l : List Char) (c : Char)
    (h : (l.dropWhile p).head? = some c) : p c = false := by
  induction l with
  | nil => simp [List.dropWhile] at h
  | cons a rest ih =>
    rw [List.dropWhile_cons] at h
    by_cases ha : p a
    · rw [if_pos ha] at h
      exact ih h
    · rw [if_neg ha] at h
      simp only [List.head?_cons, Option.some.injEq] at h
      subst h
      exact Bool.eq_false_iff.mpr ha

theorem dropWhile_getLast? (p : Char → Bool) (l : List Char)
    (h : l.dropWhile p ≠ []) : (l.dropWhile p).getLast? = l.getLast? := by
  induction l with
  | nil => simp at h
  | cons a rest ih =>
    rw [List.dropWhile_cons] at h ⊢
    by_cases ha : p a
    · rw [if_pos ha] at h ⊢
      rw [ih h]
      cases rest with
      | nil => simp [List.dropWhile] at h
      | cons r rs => simp [List.getLast?_cons_cons]
    · rw [if_neg ha]

theorem dropWhile_ne_nil_of_mem (p : Char → Bool) (l : List Char) (c : Char)
    (hc : c ∈ l) (hpc : p c = false) : l.dropWhile p ≠ [] := by
  intro h
  rw [List.dropWhile_eq_nil_iff] at h
  rw [h c hc] at hpc
  exact Bool.noConfusion hpc

theorem trimChars_head (l : List Char) (c : Char)
    (h : (trimChars l).head? = some c) : isJsSpace c = false := by
  unfold trimChars at h
  rw [List.head?_reverse] at h
  have hB : (((l.dropWhile isJsSpace).reverse.dropWhile isJsSpace)) ≠ [] := by
    intro hnil
    rw [hnil] at h
    simp at h
  rw [dropWhile_getLast? _ _ hB, List.getLast?_reverse] at h
  exact dropWhile_head?_not _ _ _ h

theorem trimChars_last (l : List Char) (c : Char)
    (h : (trimChars l).getLast? = some c) : isJsSpace c = false := by
  unfold trimChars at h
  rw [List.getLast?_reverse] at h
  exact dropWhile_head?_not _ _ _ h

end CiscoMab

namespace CiscoMab

theorem splitWsAux_ne_nil (l : List Char) :
    (∀ acc, (acc ≠ [] ∨ ((∀ c, l.head? = some c → isJsSpace c = false) ∧ l ≠ [])) →
       (l = [] ∨ ∀ c, l.getLast? = some c → isJsSpace c = false) →
       ∀ t ∈ splitWsAux l (some acc), t ≠ []) ∧
    ((l ≠ [] ∧ ∀ c, l.getLast? = some c → isJsSpace c = false) →
       ∀ t ∈ splitWsAux l none, t ≠ []) := by
  induction l with
  | nil =>
    constructor
    · intro acc h1 _ t ht
      simp only [splitWsAux, List.mem_singleton] at ht
      subst ht
      rcases h1 with hacc | ⟨_, hl⟩
      · simpa using hacc
      · exact absurd rfl hl
    · rintro ⟨hne, _⟩
      exact absurd rfl hne
  | cons c rest ih =>
    have hstep : ∀ (hc : isJsSpace c = true),
        (∀ e, (c :: rest).getLast? = some e → isJsSpace e = false) →
        rest ≠ [] ∧ ∀ e, rest.getLast? = some e → isJsSpace e = false := by
      intro hc hlast
      have hrne : rest ≠ [] := by
        intro hr
        subst hr
        have := hlast c (by simp)
        rw [hc] at this
        exact Bool.noConfusion this
      refine ⟨hrne, fun e he => hlast e ?_⟩
      cases rest with
      | nil => exact absurd rfl hrne
      | cons r rs => rw [List.getLast?_cons_cons]; exact he
    constructor
    · intro acc h1 h2 t ht
      have hlast : ∀ e, (c :: rest).getLast? = some e → isJsSpace e = false := by
        rcases h2 with h2 | h2
        · exact absurd h2 (by simp)
        · exact h2
      by_cases hc : isJsSpace c = true
      · have hacc : acc ≠ [] := by
          rcases h1 with hacc | ⟨hh, _⟩
          · exact hacc
          · have := hh c (by simp)
            rw [hc] at this
            exact Bool.noConfusion this
        rw [splitWsAux, if_pos hc] at ht
        rcases List.mem_cons.mp ht with rfl | ht2
        · simpa using hacc
        · exact ih.2 (hstep hc hlast) t ht2
      · rw [splitWsAux, if_neg hc] at ht
        refine ih.1 (c :: acc) (by left; simp) ?_ t ht
        cases rest with
        | nil => exact Or.inl rfl
        | cons r rs =>
          right
          intro e he
          apply hlast
          rw [List.getLast?_cons_cons]
          exact he
    · rintro ⟨_, hlast⟩ t ht
      by_cases hc : isJsSpace c = true
      · rw [splitWsAux, if_pos hc] at ht
        exact ih.2 (hstep hc hlast) t ht
      · rw [splitWsAux, if_neg hc] at ht
        refine ih.1 [c] (by left; simp) ?_ t ht
        cases rest with
        | nil => exact Or.inl rfl
        | cons r rs =>
          right
          intro e he
          apply hlast
          rw [List.getLast?_cons_cons]
          exact he

theorem splitWs_tokens_ne_nil (l : List Char)
    (hne : l ≠ [])
    (hh : ∀ c, l.head? = some c → isJsSpace c = false)
    (hl : ∀ c, l.getLast? = some c → isJsSpace c = false) :
    ∀ t ∈ splitWs l, t ≠ [] := by
  exact (splitWsAux_ne_nil l).1 [] (Or.inr ⟨hh, hne⟩) (Or.inr hl)

theorem splitWs_trim_tokens_ne_nil (line : List Char) (h : trimChars line ≠ []) :
    ∀ t ∈ splitWs (trimChars line), t ≠ [] := by
  refine splitWs_tokens_ne_nil _ h ?_ ?_
  · exact fun c hc => trimChars_head line c hc
  · exact fun c hc => trimChars_last line c hc

end CiscoMab

namespace CiscoMab

theorem pairChunks_ne_nil (l : List Char) (h : l ≠ []) : pairChunks l ≠ [] := by
  cases l with
  | nil => exact absurd rfl h
  | cons c rest => cases rest <;> simp [pairChunks]

theorem dotChunks_eq_pairChunks (l : List Char) (h : noLT l = true) :
    dotChunks l = pairChunks l := by
  induction l using pairChunks.induct with
  | case1 => rfl
  | case2 c =>
    simp only [noLT, List.all_cons, List.all_nil, Bool.and_true, Bool.not_eq_true'] at h
    simp [dotChunks, pairChunks, h]
  | case3 c d rest ih =>
    simp only [noLT, List.all_cons, Bool.and_eq_true, Bool.not_eq_true'] at h
    obtain ⟨hc, hd, hrest⟩ := h
    have ih2 := ih (by simpa [noLT] using hrest)
    simp [dotChunks, pairChunks, hc, hd, ih2]

theorem splitNl_no_newline (l : List Char) (h : '\n' ∉ l) : splitNl l = [l] := by
  induction l with
  | nil => rfl
  | cons c rest ih =>
    simp only [List.mem_cons, not_or] at h
    have hc : ¬ c = '\n' := fun hh => h.1 hh.symm
    simp [splitNl, hc, ih h.2]

theorem splitNl_append (x t : List Char) (h : '\n' ∉ x) :
    splitNl (x ++ '\n' :: t) = x :: splitNl t := by
  induction x with
  | nil => simp [splitNl]
  | cons c rest ih =>
    simp only [List.mem_cons, not_or] at h
    have hc : ¬ c = '\n' := fun hh => h.1 hh.symm
    simp only [List.cons_append, splitNl, hc, if_false, List.append_eq]
    rw [ih h.2]

theorem splitNl_joinSep (ls : List (List Char)) (hne : ls ≠ [])
    (h : ∀ l ∈ ls, '\n' ∉ l) : splitNl (joinSep '\n' ls) = ls := by
  induction ls with
  | nil => exact absurd rfl hne
  | cons x rest ih =>
    cases rest with
    | nil => simpa [joinSep] using splitNl_no_newline x (h x (by simp))
    | cons y rs =>
      rw [joinSep, splitNl_append _ _ (h x (by simp))]
      rw [ih (by simp) (fun l hl => h l (List.mem_cons_of_mem _ hl))]

theorem mem_joinSep (sep : Char) (ls : List (List Char)) (c : Char)
    (h : c ∈ joinSep sep ls) : c = sep ∨ ∃ l ∈ ls, c ∈ l := by
  induction ls with
  | nil => simp [joinSep] at h
  | cons x rest ih =>
    cases rest with
    | nil =>
      right
      exact ⟨x, by simp, by simpa [joinSep] using h⟩
    | cons y rs =>
      rw [joinSep] at h
      rcases List.mem_append.mp h with hx | hx
      · right
        exact ⟨x, by simp, hx⟩
      · rcases List.mem_cons.mp hx with rfl | hx2
        · left
          rfl
        · rcases ih hx2 with h1 | ⟨l, hl, hcl⟩
          · left
            exact h1
          · right
            exact ⟨l, List.mem_cons_of_mem _ hl, hcl⟩

theorem takeWhile_all_cons_append (p : Char → Bool) (xs : List Char) (y : Char)
    (rest : List Char) (hxs : ∀ c ∈ xs, p c = true) (hy : p y = false) :
    (xs ++ y :: rest).takeWhile p = xs := by
  induction xs with
  | nil => simp [List.takeWhile_cons, hy]
  | cons a as ih =>
    have ha := hxs a (by simp)
    simp only [List.cons_append, List.takeWhile_cons, ha, if_true]
    rw [ih (fun c hc => hxs c (List.mem_cons_of_mem _ hc))]

theorem dropWhile_all_cons_append (p : Char → Bool) (xs : List Char) (y : Char)
    (rest : List Char) (hxs : ∀ c ∈ xs, p c = true) (hy : p y = false) :
    (xs ++ y :: rest).dropWhile p = y :: rest := by
  induction xs with
  | nil => simp [List.dropWhile_cons, hy]
  | cons a as ih =>
    have ha := hxs a (by simp)
    simp only [List.cons_append, List.dropWhile_cons, ha, if_true]
    exact ih (fun c hc => hxs c (List.mem_cons_of_mem _ hc))

theorem jsParseInt_neg_mem (t : List Char) (v : Int) (h : jsParseInt t = some v)
    (hv : v < 0) : '-' ∈ t := by
  unfold jsParseInt at h
  split at h
  · rename_i rest heq
    have : '-' ∈ t.dropWhile isJsSpace := by
      rw [heq]
      simp
    exact (List.dropWhile_sublist _).mem this
  · rename_i rest heq
    split at h
    · exact Option.noConfusion h
    · simp only [Option.some.injEq] at h
      subst h
      exact absurd hv (by omega)
  · rename_i hne1 hne2
    split at h
    · exact Option.noConfusion h
    · simp only [Option.some.injEq] at h
      subst h
      exact absurd hv (by omega)

end CiscoMab

namespace CiscoMab

theorem isHexLooking_not_lineTerm (c : Char) (h : isHexLooking c = true) :
    isLineTerm c = false := by
  simp only [isHexLooking, Bool.or_eq_true, Bool.and_eq_true, decide_eq_true_eq] at h
  apply Bool.eq_false_iff.mpr
  intro hlt
  simp only [isLineTerm, Bool.or_eq_true, beq_iff_eq, Nat.beq_eq_true_eq] at hlt
  rcases hlt with ((h1 | h2) | h3) | h4
  · subst h1
    revert h
    decide
  · subst h2
    revert h
    decide
  · rcases h with (hh | hh) | hh <;> omega
  · rcases h with (hh | hh) | hh <;> omega

/-- C2: for every input string the MAC normalizer lower-cases it and
removes every `.`, `:` and `-`; when exactly 12 hexadecimal-looking
characters remain it returns them regrouped into 6 colon-separated
octets, when the cleaned length is not 12 it returns the cleaned string
unchanged, and on the two spec examples it yields
`00:1e:0b:41:7a:fd` and `notamac`.  (It is a total function, so it never
raises an error.) -/
theorem claim_C2 (s : List Char) :
    ((cleanMac s).length = 12 → (∀ c ∈ cleanMac s, isHexLooking c = true) →
      formatMacAddress s = joinSep ':' (pairChunks (cleanMac s))) ∧
    ((cleanMac s).length ≠ 12 → formatMacAddress s = cleanMac s) ∧
    formatMacAddress ("001E.0B41.7AFD".data) = ("00:1e:0b:41:7a:fd".data) ∧
    formatMacAddress ("not-a-mac".data) = ("notamac".data) := by
  refine ⟨?_, ?_, by decide, by decide⟩
  · intro h12 hhex
    have hnolt : noLT (cleanMac s) = true := by
      rw [noLT, List.all_eq_true]
      intro c hc
      simpa using isHexLooking_not_lineTerm c (hhex c hc)
    have hch := dotChunks_eq_pairChunks _ hnolt
    have hne : pairChunks (cleanMac s) ≠ [] :=
      pairChunks_ne_nil _ (by
        intro h0
        rw [h0] at h12
        simp at h12)
    simp only [formatMacAddress, h12, if_true, hch]
    cases hpc : pairChunks (cleanMac s) with
    | nil => exact absurd hpc hne
    | cons g gs => simp
  · intro h12
    simp only [formatMacAddress, h12, if_false]

/-- Closed instance of `claim_C2` with the hypotheses discharged: the
regrouping branch at the spec example and the passthrough branch at a
short input. -/
theorem claim_C2_witness :
    formatMacAddress ("001E.0B41.7AFD".data) =
      joinSep ':' (pairChunks (cleanMac ("001E.0B41.7AFD".data))) ∧
    formatMacAddress ("abc".data) = cleanMac ("abc".data) :=
  ⟨(claim_C2 ("001E.0B41.7AFD".data)).1 (by decide) (by decide),
   (claim_C2 ("abc".data)).2.1 (by decide)⟩

end CiscoMab

namespace CiscoMab

/-- C3: for a non-blank line that is not a mapping declaration, a record
is emitted iff the whitespace-split of the trimmed line has at least 4
tokens and token 0 parses under `parseInt(·, 10)`; the record carries
the parsed token 0, token 1 verbatim and token 3 (token 2 is not
retained); and the spec's example line yields exactly its one record. -/
theorem claim_C3 (line : List Char)
    (h1 : trimChars line ≠ []) (h2 : mappingMatch (trimChars line) = none) :
    (∀ r : Client, recordOfLine line = some r ↔
       (4 ≤ (splitWs (trimChars line)).length ∧
        jsParseInt ((splitWs (trimChars line)).headD []) = some r.vlan ∧
        r.mac = ((splitWs (trimChars line))[1]?).getD [] ∧
        r.port = ((splitWs (trimChars line))[3]?).getD [])) ∧
    processLines [("1    001e.0b41.7afd    DYNAMIC     Gi1/0/15".data)] =
      ⟨[⟨1, "001e.0b41.7afd".data, "Gi1/0/15".data⟩], [1], []⟩ := by
  refine ⟨?_, by decide⟩
  intro r
  constructor
  · intro hr
    simp only [recordOfLine, h1, if_false, h2] at hr
    split at hr
    · exact absurd hr (by simp)
    · rename_i hlen
      split at hr
      · exact absurd hr (by simp)
      · rename_i v hv
        split at hr
        · exact absurd hr (by simp)
        · rename_i hmp
          simp only [Option.some.injEq] at hr
          subst hr
          exact ⟨by omega, hv, rfl, rfl⟩
  · rintro ⟨hlen, hv, hmac, hport⟩
    have htok := splitWs_trim_tokens_ne_nil line h1
    have hlt : ¬ (splitWs (trimChars line)).length < 4 := by omega
    have hmact : ((splitWs (trimChars line))[1]?).getD [] ≠ [] := by
      have hi : 1 < (splitWs (trimChars line)).length := by omega
      rw [List.getElem?_eq_getElem hi]
      exact htok _ (List.getElem_mem hi)
    have hportt : ((splitWs (trimChars line))[3]?).getD [] ≠ [] := by
      have hi : 3 < (splitWs (trimChars line)).length := by omega
      rw [List.getElem?_eq_getElem hi]
      exact htok _ (List.getElem_mem hi)
    simp only [recordOfLine, h1, if_false, h2, hv, if_neg hlt]
    rw [if_neg (by simp [hmact, hportt])]
    rw [← hmac, ← hport]

/-- Closed instance of `claim_C3` at the line `1 aa DYNAMIC p`,
extracting its record through the forward direction of the iff. -/
theorem claim_C3_witness :
    4 ≤ (splitWs (trimChars ("1 aa DYNAMIC p".data))).length ∧
    jsParseInt ((splitWs (trimChars ("1 aa DYNAMIC p".data))).headD []) =
      some (⟨1, "aa".data, "p".data⟩ : Client).vlan ∧
    (⟨1, "aa".data, "p".data⟩ : Client).mac =
      ((splitWs (trimChars ("1 aa DYNAMIC p".data)))[1]?).getD [] ∧
    (⟨1, "aa".data, "p".data⟩ : Client).port =
      ((splitWs (trimChars ("1 aa DYNAMIC p".data)))[3]?).getD [] :=
  ((claim_C3 ("1 aa DYNAMIC p".data) (by decide) (by decide)).1
    ⟨1, "aa".data, "p".data⟩).mp (by decide)

end CiscoMab

namespace CiscoMab

/-- C4: a line matching the mapping pattern contributes no record and
stores the quote-stripped segment under the decimal string of the parsed
VLAN id; a later declaration for the same VLAN id overwrites an earlier
one; a digits `=` single-quoted-segment line matches with the quotes
stripped; and `5 = 'Guest'` maps key `5` to `Guest`. -/
theorem claim_C4 :
    (∀ (st : ParseState) (line : List Char) (v : Nat) (seg : List Char),
       mappingMatch (trimChars line) = some (v, seg) →
       stepLine st line =
         { st with detectedMappings := objSet st.detectedMappings (natChars v) seg }) ∧
    (∀ (st : ParseState) (l1 l2 : List Char) (v : Nat) (s1 s2 : List Char),
       mappingMatch (trimChars l1) = some (v, s1) →
       mappingMatch (trimChars l2) = some (v, s2) →
       objGet ((stepLine (stepLine st l1) l2).detectedMappings) (natChars v) = some s2) ∧
    (∀ (ds seg : List Char), ds ≠ [] → (∀ c ∈ ds, c.isDigit = true) →
       (∀ c ∈ seg, isLineTerm c = false) →
       mappingMatch (ds ++ ' ' :: '=' :: ' ' :: '\x27' :: (seg ++ ['\x27'])) =
         some (digitsVal ds, seg)) ∧
    processLines [("5 = \x27Guest\x27".data)] =
      { clients := [], uniqueVlans := [],
        detectedMappings := [("5".data, "Guest".data)] } := by
  refine ⟨fun st line v seg h => stepLine_mapping st line v seg h, ?_, ?_, by decide⟩
  · intro st l1 l2 v s1 s2 hm1 hm2
    rw [stepLine_mapping st l1 v s1 hm1, stepLine_mapping _ l2 v s2 hm2]
    exact objGet_objSet_self _ _ _
  · intro ds seg hne hds hseg
    have h1 : (ds ++ ' ' :: '=' :: ' ' :: '\x27' :: (seg ++ ['\x27'])).takeWhile
        Char.isDigit = ds :=
      takeWhile_all_cons_append _ _ _ _ hds (by decide)
    have h2 : (ds ++ ' ' :: '=' :: ' ' :: '\x27' :: (seg ++ ['\x27'])).dropWhile
        Char.isDigit = ' ' :: '=' :: ' ' :: '\x27' :: (seg ++ ['\x27']) :=
      dropWhile_all_cons_append _ _ _ _ hds (by decide)
    have hql : (seg ++ ['\x27']).getLast? = some '\x27' := by simp
    have hdl : (seg ++ ['\x27']).dropLast = seg := by simp
    have hnolt : noLT seg = true := by
      rw [noLT, List.all_eq_true]
      intro c hc
      simpa using hseg c hc
    simp only [mappingMatch, h1, h2, if_neg hne]
    rw [List.dropWhile_cons, if_pos (by decide : isJsSpace ' ' = true)]
    rw [List.dropWhile_cons, if_neg (by decide : ¬ isJsSpace '=' = true)]
    simp only []
    rw [List.dropWhile_cons, if_pos (by decide : isJsSpace ' ' = true)]
    rw [List.dropWhile_cons, if_neg (by decide : ¬ isJsSpace '\x27' = true)]
    simp only [mappingTail, if_pos (by decide : isQuote '\x27' = true)]
    simp only [tailCapture, lastIsQuote, hql, hdl, hnolt]
    rw [if_pos (by decide : (isQuote '\x27' && true) = true)]

/-- Closed instance of `claim_C4`: the `5 = 'Guest'` store, last-wins at
VLAN 5, and the generic quoted shape at `77 = 'Lab'`. -/
theorem claim_C4_witness :
    stepLine ⟨[], [], []⟩ ("5 = \x27Guest\x27".data) =
      { clients := [], uniqueVlans := [],
        detectedMappings := objSet [] (natChars 5) ("Guest".data) } ∧
    objGet ((stepLine (stepLine ⟨[], [], []⟩ ("5 = \x27A\x27".data))
        ("5 = \x27B\x27".data)).detectedMappings) (natChars 5) = some ("B".data) ∧
    mappingMatch (("77".data) ++ ' ' :: '=' :: ' ' :: '\x27' :: (("Lab".data) ++ ['\x27'])) =
      some (digitsVal ("77".data), "Lab".data) :=
  ⟨claim_C4.1 ⟨[], [], []⟩ _ 5 ("Guest".data) (by decide),
   claim_C4.2.1 ⟨[], [], []⟩ _ _ 5 ("A".data) ("B".data) (by decide) (by decide),
   claim_C4.2.2.1 ("77".data) ("Lab".data) (by decide) (by decide) (by decide)⟩

end CiscoMab

namespace CiscoMab

theorem recordOfLine_parse (line : List Char) (r : Client)
    (h : recordOfLine line = some r) :
    jsParseInt ((splitWs (trimChars line)).headD []) = some r.vlan := by
  simp only [recordOfLine] at h
  split at h
  · exact absurd h (by simp)
  · split at h
    · exact absurd h (by simp)
    · split at h
      · exact absurd h (by simp)
      · split at h
        · exact absurd h (by simp)
        · rename_i hv
          split at h
          · exact absurd h (by simp)
          · simp only [Option.some.injEq] at h
            subst h
            exact hv

/-- C7 counterexample: the line `-5 aa DYNAMIC Gi1/0/1` is extracted as
a record whose VLAN id is −5, so not every extracted record carries a
non-negative VLAN id. -/
theorem claim_C7_counterexample :
    ((parseFileContent ("-5 aa DYNAMIC Gi1/0/1".data)).clients.all
      fun r => decide (0 ≤ r.vlan)) = false := by decide

/-- C7 (amended): every extracted record's `vlan` is an integer, and it
is non-negative whenever the line's first whitespace token contains no
minus sign — `parseInt` accepts a leading `-` and then yields a negative
VLAN id. -/
theorem claim_C7 (line : List Char) (r : Client)
    (h : recordOfLine line = some r)
    (hm : '-' ∉ ((splitWs (trimChars line)).headD [])) : 0 ≤ r.vlan := by
  have hv := recordOfLine_parse line r h
  by_contra hneg
  push_neg at hneg
  exact hm (jsParseInt_neg_mem _ _ hv hneg)

/-- Closed instance of `claim_C7` at the line `1 aa DYNAMIC p`. -/
theorem claim_C7_witness : 0 ≤ (Client.mk 1 ("aa".data) ("p".data)).vlan :=
  claim_C7 ("1 aa DYNAMIC p".data) (Client.mk 1 ("aa".data) ("p".data))
    (by decide) (by decide)

end CiscoMab

namespace CiscoMab

/-- C1: with `includeIpColumns = false` the rendered CSV's header row is
the comma-join of exactly the 7 base column names and every data row is
the comma-join of exactly 7 fields; with `includeIpColumns = true` the 4
IP-related names are appended to the header (11 columns) and every data
row has exactly 11 fields. -/
theorem claim_C1 (records : List Client) (m : List (List Char × List Char)) :
    (render records m false =
       joinSep '\n'
         (joinSep ','
            ["MAC Address (Required)".data,
             "Segment (Required for allow state)".data,
             "Lock to Port (Optional)".data,
             "Site (Optional)".data,
             "Building (Optional)".data,
             "Floor (Optional)".data,
             "Allow or Deny (Required)".data] ::
           records.map fun c => joinSep ',' (rowFields m false c)) ∧
     ∀ c : Client, (rowFields m false c).length = 7) ∧
    (render records m true =
       joinSep '\n'
         (joinSep ','
            ["MAC Address (Required)".data,
             "Segment (Required for allow state)".data,
             "Lock to Port (Optional)".data,
             "Site (Optional)".data,
             "Building (Optional)".data,
             "Floor (Optional)".data,
             "Allow or Deny (Required)".data,
             "Description (Optional)".data,
             "Static IP (Optional)".data,
             "IP Address (Optional)".data,
             "Passive IP (Optional)".data] ::
           records.map fun c => joinSep ',' (rowFields m true c)) ∧
     ∀ c : Client, (rowFields m true c).length = 11) :=
  ⟨⟨rfl, fun _ => rfl⟩, ⟨rfl, fun _ => rfl⟩⟩

/-- C5: in a rendered row the Segment field equals the mapping entry for
the record's VLAN id when present and is empty when absent; the Lock to
Port, Site, Building and Floor fields are always empty; the Allow or
Deny field is the literal `Allow`; with `includeIpColumns = true` the
trailing four fields are empty, `No`, empty, `No`; and the source
`generateCsv` row fields coincide with the `includeIpColumns = true`
rendered row. -/
theorem claim_C5 (m : List (List Char × List Char)) (c : Client) (b : Bool) :
    (∀ s, objGet m (intChars c.vlan) = some s → (rowFields m b c).get? 1 = some s) ∧
    (objGet m (intChars c.vlan) = none → (rowFields m b c).get? 1 = some []) ∧
    ((rowFields m b c).get? 2 = some [] ∧ (rowFields m b c).get? 3 = some [] ∧
     (rowFields m b c).get? 4 = some [] ∧ (rowFields m b c).get? 5 = some []) ∧
    (rowFields m b c).get? 6 = some ("Allow".data) ∧
    (b = true → (rowFields m b c).drop 7 = [[], "No".data, [], "No".data]) ∧
    csvRowFields m c = rowFields m true c := by
  refine ⟨?_, ?_, ⟨by rfl, by rfl, by rfl, by rfl⟩, by rfl, ?_, by rfl⟩
  · intro s hs
    have hseg : (rowFields m b c).get? 1 = some (jsOrEmpty (objGet m (intChars c.vlan))) := by
      rfl
    rw [hseg, hs]
    by_cases hsnil : s = []
    · subst hsnil
      rfl
    · simp [jsOrEmpty, hsnil]
  · intro hnone
    have hseg : (rowFields m b c).get? 1 = some (jsOrEmpty (objGet m (intChars c.vlan))) := by
      rfl
    rw [hseg, hnone]
    rfl
  · intro hb
    subst hb
    rfl

/-- Closed instance of `claim_C5`: the Segment lookup and the IP tail at
a concrete mapping and record. -/
theorem claim_C5_witness :
    (rowFields [("1".data, "Guest".data)] true ⟨1, "aa".data, "p".data⟩).get? 1 =
      some ("Guest".data) ∧
    (rowFields [] true ⟨1, "aa".data, "p".data⟩).get? 1 = some [] ∧
    (rowFields [("1".data, "Guest".data)] true ⟨1, "aa".data, "p".data⟩).drop 7 =
      [[], "No".data, [], "No".data] :=
  ⟨(claim_C5 [("1".data, "Guest".data)] ⟨1, "aa".data, "p".data⟩ true).1
      ("Guest".data) (by decide),
   (claim_C5 [] ⟨1, "aa".data, "p".data⟩ true).2.1 (by decide),
   (claim_C5 [("1".data, "Guest".data)] ⟨1, "aa".data, "p".data⟩ true).2.2.2.2.1 rfl⟩

/-- C10: the generated CSV is the header line followed by one line per
record, joined with single newlines and no trailing newline; an empty
records list yields exactly the header line; and when no rendered field
contains a newline the output has exactly `1 + records.length` lines. -/
theorem claim_C10 (records : List Client) (m : List (List Char × List Char)) :
    generateCsv [] m = joinSep ',' csvHeaders ∧
    generateCsv records m =
      joinSep '\n' (joinSep ',' csvHeaders ::
        records.map fun c => joinSep ',' (csvRowFields m c)) ∧
    ((∀ c ∈ records, ∀ f ∈ csvRowFields m c, '\n' ∉ f) →
       (splitNl (generateCsv records m)).length = 1 + records.length) := by
  refine ⟨rfl, rfl, ?_⟩
  intro hnl
  rw [generateCsv, splitNl_joinSep]
  · simp [Nat.add_comm]
  · simp
  · intro l hl
    rcases List.mem_cons.mp hl with rfl | hl2
    · decide
    · obtain ⟨c, hc, rfl⟩ := List.mem_map.mp hl2
      intro hmem
      rcases mem_joinSep ',' _ '\n' hmem with h1 | ⟨f, hf, hcf⟩
      · exact absurd h1 (by decide)
      · exact hnl c hc f hf hcf

/-- Closed instance of `claim_C10`: the line count at one record with no
newline in any field. -/
theorem claim_C10_witness :
    (splitNl (generateCsv [⟨1, "aa".data, "p".data⟩] [])).length = 1 + 1 :=
  (claim_C10 [⟨1, "aa".data, "p".data⟩] []).2.2 (by decide)

/-- C8: extracted records appear in input line order (the clients list
is the in-order `filterMap` of the per-line extractor over the input
lines), and the CSV body has one row per record in the same order (row
`i` is rendered from record `i`). -/
theorem claim_C8 (content : List Char) (records : List Client)
    (m : List (List Char × List Char)) :
    (parseFileContent content).clients =
      (splitNl (trimChars content)).filterMap recordOfLine ∧
    generateCsv records m =
      joinSep '\n' (joinSep ',' csvHeaders ::
        records.map fun c => joinSep ',' (csvRowFields m c)) := by
  refine ⟨?_, rfl⟩
  show (processLines (splitNl (trimChars content))).clients = _
  rw [processLines, foldl_stepLine_clients]
  simp

end CiscoMab

namespace CiscoMab

/-- C6: when every line of the input is blank or noise (contributes no
record), extraction yields an empty clients list and the conversion
request fails with the user-facing no-records error instead of
crashing; and a line that contributes neither a record nor a mapping is
silently skipped — removing it from anywhere in the line sequence does
not change the result of the scan. -/
theorem claim_C6 (content : List Char) (vm : List (List Char × List Char))
    (xs ys : List (List Char)) (l : List Char) :
    ((∀ ln ∈ splitNl (trimChars content), recordOfLine ln = none) →
       (parseFileContent content).clients = [] ∧
       processRequest content vm =
         Except.error ("No valid MAC address entries found in the file".data)) ∧
    ((recordOfLine l = none ∧ lineMapping l = none) →
       processLines (xs ++ l :: ys) = processLines (xs ++ ys)) := by
  constructor
  · intro hall
    have hcl : (parseFileContent content).clients = [] := by
      show (processLines (splitNl (trimChars content))).clients = []
      rw [processLines, foldl_stepLine_clients]
      simpa using hall
    refine ⟨hcl, ?_⟩
    simp [processRequest, hcl]
  · rintro ⟨hr, hm2⟩
    rw [processLines, processLines, List.foldl_append, List.foldl_append,
      List.foldl_cons, stepLine_skip _ _ hr hm2]

/-- Closed instance of `claim_C6`: a noise-only input fails with the
no-records error, and inserting a noise line does not change the scan. -/
theorem claim_C6_witness :
    ((parseFileContent ("switch output header\n\nVlan Mac Type Port".data)).clients = [] ∧
     processRequest ("switch output header\n\nVlan Mac Type Port".data) [] =
       Except.error ("No valid MAC address entries found in the file".data)) ∧
    processLines (["1 aa DYNAMIC p".data] ++ ("garbage".data) :: []) =
      processLines (["1 aa DYNAMIC p".data] ++ []) :=
  ⟨(claim_C6 ("switch output header\n\nVlan Mac Type Port".data) [] [] []
      []).1 (by decide),
   (claim_C6 [] [] ["1 aa DYNAMIC p".data] [] ("garbage".data)).2
      (by exact ⟨by decide, by decide⟩)⟩

/-- C9: the mapping table used for rendering is the caller-supplied one
whenever it has at least one key — the detected mappings are then
ignored entirely — and otherwise it is the detected table in its
entirety. -/
theorem claim_C9 (content : List Char) (vm : List (List Char × List Char)) :
    (vm ≠ [] → (parseFileContent content).clients ≠ [] →
       processRequest content vm =
         Except.ok ⟨generateCsv (parseFileContent content).clients vm,
                    (parseFileContent content).detectedMappings⟩) ∧
    (vm = [] → (parseFileContent content).clients ≠ [] →
       processRequest content vm =
         Except.ok ⟨generateCsv (parseFileContent content).clients
                      (parseFileContent content).detectedMappings,
                    (parseFileContent content).detectedMappings⟩) := by
  constructor
  · intro hvm hcl
    simp only [processRequest]
    rw [if_neg (by simpa [List.length_eq_zero] using hcl)]
    rw [if_pos (List.length_pos.mpr hvm)]
  · intro hvm hcl
    subst hvm
    simp only [processRequest]
    rw [if_neg (by simpa [List.length_eq_zero] using hcl)]
    rw [if_neg (by simp)]

/-- Closed instance of `claim_C9`: with a non-empty caller table the
rendered CSV uses it and ignores a detected mapping for a VLAN the
caller's table omits; with an empty caller table the detected table is
used. -/
theorem claim_C9_witness :
    processRequest ("7 = Lab\n7 aa DYNAMIC Gi1".data) [("9".data, "Other".data)] =
      Except.ok ⟨generateCsv (parseFileContent ("7 = Lab\n7 aa DYNAMIC Gi1".data)).clients
                   [("9".data, "Other".data)],
                 (parseFileContent ("7 = Lab\n7 aa DYNAMIC Gi1".data)).detectedMappings⟩ ∧
    processRequest ("7 = Lab\n7 aa DYNAMIC Gi1".data) [] =
      Except.ok ⟨generateCsv (parseFileContent ("7 = Lab\n7 aa DYNAMIC Gi1".data)).clients
                   (parseFileContent ("7 = Lab\n7 aa DYNAMIC Gi1".data)).detectedMappings,
                 (parseFileContent ("7 = Lab\n7 aa DYNAMIC Gi1".data)).detectedMappings⟩ :=
  ⟨(claim_C9 ("7 = Lab\n7 aa DYNAMIC Gi1".data) [("9".data, "Other".data)]).1
      (by decide) (by decide),
   (claim_C9 ("7 = Lab\n7 aa DYNAMIC Gi1".data) []).2 rfl (by decide)⟩

end CiscoMab
